import Mathlib

/-!
Verification development for the medical-IoT authorization simulation
(`final.cpp`).  C++ `std::string` values are modelled as `List Nat` of byte
values, machine integers as `Int`/`Nat`, and `double` probabilities as `ℚ`.
The AES-128 block core, the SHA-256 key derivation and the entropy source are
external library code (Crypto++); they enter the model as explicit oracle
parameters (an abstract keyed block-function pair, explicit IV/token byte
arguments).  Everything else is translated directly from `final.cpp`.
-/

deriving instance DecidableEq for Except

namespace AuthSim

/-- Byte values of a Lean string literal; a C++ `std::string` is a byte
string, modelled as `List Nat` with every element `< 256`. -/
def strBytes (s : String) : List Nat := s.data.map Char.toNat

/-- Digit loop of `natDec`, structurally recursive on a fuel bound (any
fuel at least the digit count gives the same value; the zero-fuel fallback
is unreachable from `natDec`). -/
def natDecAux : Nat → Nat → List Nat
  | 0, n => [48 + n % 10]
  | fuel + 1, n =>
    if n < 10 then [48 + n] else natDecAux fuel (n / 10) ++ [48 + n % 10]

/-- ASCII decimal rendering of a natural number, modelling `std::to_string`
on the non-negative node index. -/
def natDec (n : Nat) : List Nat := natDecAux n n

/-- Lowercase hex digit character code for a nibble (`HexEncoder` is
constructed with `uppercase = false` at final.cpp:40). -/
def hexDigit (d : Nat) : Nat := if d < 10 then 48 + d else 87 + d

/-- `toHex` (final.cpp:37-42): lowercase hex encoding of a byte string. -/
def toHex (bs : List Nat) : List Nat :=
  bs.flatMap (fun b => [hexDigit (b / 16), hexDigit (b % 16)])

/-- Value of one hex character.  Crypto++ `HexDecoder` accepts both cases;
`none` marks a character outside the hex alphabet. -/
def hexVal (c : Nat) : Option Nat :=
  if 48 ≤ c ∧ c ≤ 57 then some (c - 48)
  else if 97 ≤ c ∧ c ≤ 102 then some (c - 87)
  else if 65 ≤ c ∧ c ≤ 70 then some (c - 55)
  else none

/-- Group a nibble stream into bytes, two nibbles per byte, dropping a
trailing lone nibble (Crypto++ base-16 grouping). -/
def pairUp : List Nat → List Nat
  | h :: l :: rest => (16 * h + l) :: pairUp rest
  | _ => []

/-- `fromHex` (final.cpp:44-49).  Crypto++ `HexDecoder` silently skips input
characters outside the hex alphabet and never fails. -/
def fromHex (s : List Nat) : List Nat := pairUp (s.filterMap hexVal)

/-- Bytewise XOR of two equal-length byte strings (truncating to the
shorter, which never happens on the 16-byte blocks it is applied to). -/
def xorB (a b : List Nat) : List Nat := List.zipWith (fun x y => x ^^^ y) a b

/-- A block of 16 byte values. -/
def GoodBlock (b : List Nat) : Prop := b.length = 16 ∧ ∀ x ∈ b, x < 256

instance : DecidablePred GoodBlock := fun b => by
  unfold GoodBlock; infer_instance

/-- The AES-128 block core is external Crypto++ code; it is modelled as an
abstract keyed block-function pair.  Keys are opaque identifiers standing
for the three `SecByteBlock` values derived once in `main` (final.cpp
338-340) via SHA-256 (`deriveKey`, final.cpp:52-58). -/
structure BlockCipher where
  enc : Nat → List Nat → List Nat
  dec : Nat → List Nat → List Nat

/-- The decryption core inverts the encryption core on byte blocks, and the
encryption core maps byte blocks to byte blocks. -/
def BlockCipher.Sound (C : BlockCipher) : Prop :=
  ∀ k b, GoodBlock b → C.dec k (C.enc k b) = b ∧ GoodBlock (C.enc k b)

/-- Opaque identifier for the key `KEY_TA_NODE` (final.cpp:103). -/
def KEY_TA_NODE : Nat := 0
/-- Opaque identifier for the key `KEY_NODE_MW` (final.cpp:104). -/
def KEY_NODE_MW : Nat := 1
/-- Opaque identifier for the key `KEY_TA_MW` (final.cpp:105). -/
def KEY_TA_MW : Nat := 2

/-- Block loop of CBC encryption, structurally recursive on a fuel bound
(any fuel at least the block count gives the same value). -/
def cbcEncAux (E : List Nat → List Nat) : Nat → List Nat → List Nat → List Nat
  | 0, _, _ => []
  | fuel + 1, prev, m =>
    if m = [] then [] else
      let c := E (xorB prev (m.take 16))
      c ++ cbcEncAux E fuel c (m.drop 16)

/-- CBC-mode encryption over an abstract block function (the
`CBC_Mode<AES>::Encryption` object built at final.cpp:66-70); the input is
already padded to a multiple of 16 bytes, `prev` is the IV. -/
def cbcEnc (E : List Nat → List Nat) (prev m : List Nat) : List Nat :=
  cbcEncAux E m.length prev m

/-- Block loop of CBC decryption, structurally recursive on a fuel bound. -/
def cbcDecAux (D : List Nat → List Nat) : Nat → List Nat → List Nat → List Nat
  | 0, _, _ => []
  | fuel + 1, prev, c =>
    if c = [] then [] else
      xorB prev (D (c.take 16)) ++ cbcDecAux D fuel (c.take 16) (c.drop 16)

/-- CBC-mode decryption over an abstract block function (final.cpp:85-89);
each plaintext block is the block-decryption XORed with the previous
ciphertext block (initially the IV). -/
def cbcDec (D : List Nat → List Nat) (prev c : List Nat) : List Nat :=
  cbcDecAux D c.length prev c

/-- PKCS#7 padding, the `StreamTransformationFilter` default for CBC mode:
append `p` copies of `p` where `p = 16 - len mod 16` (so `16` for an already
aligned message). -/
def pkcs7pad (m : List Nat) : List Nat :=
  let p := 16 - m.length % 16
  m ++ List.replicate p p

/-- PKCS#7 unpadding as validated by Crypto++: the final byte `p` must lie
in `[1,16]` and the last `p` bytes must all equal `p`; otherwise the filter
throws `InvalidCiphertext`. -/
def pkcs7unpad (m : List Nat) : Option (List Nat) :=
  match m.getLast? with
  | none => none
  | some p =>
    if 1 ≤ p ∧ p ≤ 16 ∧ p ≤ m.length ∧ (m.drop (m.length - p)).all (fun x => x = p)
    then some (m.take (m.length - p)) else none

/-- `aesEncryptHex` (final.cpp:61-74): CBC-encrypt the PKCS#7-padded
plaintext under a fresh random IV (the entropy draw is passed as the
explicit `iv` argument) and return `hex(iv) ++ ":" ++ hex(cipher)`
(`58` is the byte value of the separator character). -/
def aesEncryptHex (E : List Nat → List Nat) (iv plain : List Nat) : List Nat :=
  toHex iv ++ 58 :: toHex (cbcEnc E iv (pkcs7pad plain))

/-- First index at which `pat` occurs in `hay` (`std::string::find`); the
empty pattern is found at index 0, matching `std::string::find`. -/
def findSub : List Nat → List Nat → Option Nat
  | [], pat => if pat.isPrefixOf [] then some 0 else none
  | a :: t, pat =>
    if pat.isPrefixOf (a :: t) then some 0
    else (findSub t pat).map (· + 1)

/-- `std::string::find(pat, start)`: first occurrence at index `≥ start`. -/
def findSubFrom (hay pat : List Nat) (start : Nat) : Option Nat :=
  (findSub (hay.drop start) pat).map (· + start)

/-- `aesDecryptHex` (final.cpp:76-91): split the wire string on the first
`:` (throwing `Bad ciphertext format` when absent), hex-decode both parts,
then CBC-decrypt and unpad.  `SetKeyWithIV` reads exactly 16 IV bytes (an
out-of-bounds read in the source when the decoded IV is shorter — modelled
as an error); the stream filter throws `InvalidCiphertext` on an empty or
unaligned ciphertext and on bad padding. -/
def aesDecryptHex (D : List Nat → List Nat) (combined : List Nat) :
    Except String (List Nat) :=
  match findSub combined [58] with
  | none => Except.error "Bad ciphertext format"
  | some pos =>
    let ivhex := combined.take pos
    let chex := combined.drop (pos + 1)
    let iv := fromHex ivhex
    let cipher := fromHex chex
    if iv.length < 16 then Except.error "IV shorter than block size"
    else if cipher.length = 0 ∨ cipher.length % 16 ≠ 0 then
      Except.error "InvalidCiphertext"
    else
      match pkcs7unpad (cbcDec D (iv.take 16) cipher) with
      | none => Except.error "InvalidCiphertext"
      | some m => Except.ok m

/-- `genTokenHex` (final.cpp:94-99): hex-render freshly drawn random bytes;
the entropy draw is passed as the explicit `raw` argument (8 or 16 bytes at
the two call sites). -/
def genTokenHex (raw : List Nat) : List Nat := toHex raw

/-- `NODE_ID_BASE` (final.cpp:102). -/
def NODE_ID_BASE : List Nat := strBytes "node-"

/-- Result of `TA_issue_tokens_for_node` (final.cpp:108-112). -/
structure IssuedTokens where
  token_plain : List Nat
  enc_for_node : List Nat
  enc_for_mw : List Nat

/-- `TA_issue_tokens_for_node` (final.cpp:114-121): draw a fresh 16-byte
token, embed it in the two recipient-addressed payloads, and encrypt each
under its channel key.  The token bytes and the two fresh IVs are the
explicit entropy arguments. -/
def TA_issue_tokens_for_node (C : BlockCipher) (node_id : List Nat)
    (tokenRaw ivNode ivMw : List Nat) : IssuedTokens :=
  let token := genTokenHex tokenRaw
  let payload_for_node := strBytes "NODE_ID:" ++ node_id ++ strBytes ";TOKEN:" ++ token
  let payload_for_mw := strBytes "MW_EXPECTS_NODE:" ++ node_id ++ strBytes ";TOKEN:" ++ token
  let enc_node := aesEncryptHex (C.enc KEY_TA_NODE) ivNode payload_for_node
  let enc_mw := aesEncryptHex (C.enc KEY_TA_MW) ivMw payload_for_mw
  { token_plain := token, enc_for_node := enc_node, enc_for_mw := enc_mw }

/-- Token extraction used at final.cpp:235-236 and 256-257: the substring
after the first `TOKEN:` marker, or the empty string when the marker is
absent. -/
def extractAfterToken (s : List Nat) : List Nat :=
  match findSub s (strBytes "TOKEN:") with
  | none => []
  | some p => s.drop (p + 6)

/-- Middleware header validation (final.cpp:262-272): locate `HEADER[`,
then the first `]` after it, extract the token after `TOKEN:` inside the
header (empty when absent), and compare byte-for-byte with the TA token.
When either marker is missing, the success flag is never assigned and stays
`false`. -/
def mwValidate (node_request_plain ta_token : List Nat) : Bool :=
  match findSub node_request_plain (strBytes "HEADER[") with
  | none => false
  | some hpos =>
    match findSubFrom node_request_plain (strBytes "]") (hpos + 7) with
    | none => false
    | some hend =>
      let header_str := (node_request_plain.drop (hpos + 7)).take (hend - (hpos + 7))
      let node_token := extractAfterToken header_str
      node_token == ta_token

/-- `Config` (final.cpp:124-135) with the in-source default values; the two
C++ `double` percentage fields are modelled as rationals. -/
structure Config where
  nodes : Int := 100
  workers : Int := 2
  tamper_percent : ℚ := 0
  payload_bytes : Int := 500
  node_start_jitter_ms : Int := 50
  net_delay_ta_node_min : Int := 5
  net_delay_ta_node_max : Int := 20
  net_delay_node_mw_min : Int := 5
  net_delay_node_mw_max : Int := 20
  db_delay_min : Int := 10
  db_delay_max : Int := 30
  fail_percent : ℚ := 0
  out_file : String := "realistic_perf.csv"
deriving DecidableEq

/-- Per-node entropy and timing oracle: the two uniform draws from `[0,1)`,
the raw token bytes, the raw tamper-replacement bytes, the three fresh IVs,
and the two possible wall-clock elapsed readings (times are external
effects; they carry no constraint in the model). -/
structure NodeRand where
  failDraw : ℚ
  tamperDraw : ℚ
  tokenBytes : List Nat
  tamperBytes : List Nat
  ivNode : List Nat
  ivMw : List Nat
  ivReq : List Nat
  elapsedDrop : Int
  elapsedFull : Int

/-- Well-formedness of the oracle draws, exactly what the external sources
guarantee: `uniform_real_distribution(0,1)` draws lie in `[0,1)`,
`GenerateBlock` fills the requested number of bytes (16 for the token at
final.cpp:115, 8 for the tamper replacement at final.cpp:240, 16 for each
IV) with byte values. -/
def ValidRand (r : NodeRand) : Prop :=
  0 ≤ r.failDraw ∧ r.failDraw < 1 ∧ 0 ≤ r.tamperDraw ∧ r.tamperDraw < 1 ∧
  r.tokenBytes.length = 16 ∧ (∀ b ∈ r.tokenBytes, b < 256) ∧
  r.tamperBytes.length = 8 ∧ (∀ b ∈ r.tamperBytes, b < 256) ∧
  GoodBlock r.ivNode ∧ GoodBlock r.ivMw ∧ GoodBlock r.ivReq

instance : DecidablePred ValidRand := fun r => by
  unfold ValidRand; infer_instance

/-- `NodeMetrics` (final.cpp:183-188). -/
structure NodeMetrics where
  node_index : Nat
  total_us : Int := 0
  success : Bool := false
  dropped : Bool := false
deriving DecidableEq

/-- The tamper step (final.cpp:239-241): when the uniform draw falls below
`tamper_percent / 100`, replace the extracted token with `genTokenHex(8)`
over fresh entropy. -/
def maybeTamper (cfg : Config) (draw : ℚ) (tamperRaw tok : List Nat) : List Nat :=
  if draw < cfg.tamper_percent / 100 then genTokenHex tamperRaw else tok

/-- One iteration body of `worker_func` for a claimed index (final.cpp
209-281), as a function of the per-node entropy oracle.  An `Except.error`
corresponds to an exception escaping the worker thread (which in the source
terminates the whole process).  The simulated sleeps only affect the
wall-clock readings, which the oracle supplies directly. -/
def simulateNode (C : BlockCipher) (cfg : Config) (idx : Nat) (r : NodeRand) :
    Except String NodeMetrics :=
  -- Simulate random drop/failure (final.cpp:221-228)
  if r.failDraw < cfg.fail_percent / 100 then
    Except.ok { node_index := idx, total_us := r.elapsedDrop,
                success := false, dropped := true }
  else do
    -- TA issues token (final.cpp:231)
    let node_id := NODE_ID_BASE ++ natDec idx
    let issued := TA_issue_tokens_for_node C node_id r.tokenBytes r.ivNode r.ivMw
    -- Node decrypts (final.cpp:234-236)
    let decrypted_payload ← aesDecryptHex (C.dec KEY_TA_NODE) issued.enc_for_node
    let token_extracted := extractAfterToken decrypted_payload
    -- Maybe tamper (final.cpp:239-241)
    let token_extracted := maybeTamper cfg r.tamperDraw r.tamperBytes token_extracted
    -- Build and encrypt to MW (final.cpp:244-251)
    let payload := List.replicate cfg.payload_bytes.toNat (65 + idx % 26)
    let header := strBytes "NODE_ID:" ++ node_id ++ strBytes ";TOKEN:" ++ token_extracted
    let full_request := strBytes "HEADER[" ++ header ++ strBytes "]|BODY[" ++ payload ++ strBytes "]"
    let encrypted_for_mw := aesEncryptHex (C.enc KEY_NODE_MW) r.ivReq full_request
    -- Middleware decrypt and validate (final.cpp:254-272)
    let ta_payload_for_mw ← aesDecryptHex (C.dec KEY_TA_MW) issued.enc_for_mw
    let ta_token := extractAfterToken ta_payload_for_mw
    let node_request_plain ← aesDecryptHex (C.dec KEY_NODE_MW) encrypted_for_mw
    let success := mwValidate node_request_plain ta_token
    Except.ok { node_index := idx, total_us := r.elapsedFull,
                success := success, dropped := false }

/-- Outcome of `parse_args` (final.cpp:136-172): `ok` is a `true` return
with the filled `Config`, `failed` is a `false` return (help request or
unknown argument), `aborted` is an exception thrown by `std::stoi` or
`std::stod` on a malformed number, which `main` never catches. -/
inductive ParseOutcome where
  | ok (cfg : Config)
  | failed
  | aborted
deriving DecidableEq

/-- Argument loop of `parse_args` (final.cpp:137-164).  `std::stoi` and
`std::stod` are external library functions, passed as oracles returning
`none` for the throwing case.  A recognized flag whose required value
arguments are missing (the `i+1<argc` / `i+2<argc` guard fails) falls
through every branch into the final unknown-argument branch, which returns
`false`. -/
def parseArgsAux (stoi : String → Option Int) (stod : String → Option ℚ) :
    Config → List String → ParseOutcome
  | cfg, [] => .ok cfg
  | cfg, a :: rest =>
    if a = "--nodes" then
      match rest with
      | v :: rest =>
        match stoi v with
        | some n => parseArgsAux stoi stod { cfg with nodes := n } rest
        | none => .aborted
      | [] => .failed
    else if a = "--workers" then
      match rest with
      | v :: rest =>
        match stoi v with
        | some n => parseArgsAux stoi stod { cfg with workers := n } rest
        | none => .aborted
      | [] => .failed
    else if a = "--tamper-percent" then
      match rest with
      | v :: rest =>
        match stod v with
        | some p => parseArgsAux stoi stod { cfg with tamper_percent := p } rest
        | none => .aborted
      | [] => .failed
    else if a = "--payload-bytes" then
      match rest with
      | v :: rest =>
        match stoi v with
        | some n => parseArgsAux stoi stod { cfg with payload_bytes := n } rest
        | none => .aborted
      | [] => .failed
    else if a = "--node-jitter" then
      match rest with
      | v :: rest =>
        match stoi v with
        | some n => parseArgsAux stoi stod { cfg with node_start_jitter_ms := n } rest
        | none => .aborted
      | [] => .failed
    else if a = "--net-ta-node" then
      match rest with
      | v1 :: v2 :: rest =>
        match stoi v1, stoi v2 with
        | some n1, some n2 =>
          parseArgsAux stoi stod
            { cfg with net_delay_ta_node_min := n1, net_delay_ta_node_max := n2 } rest
        | _, _ => .aborted
      | _ => .failed
    else if a = "--net-node-mw" then
      match rest with
      | v1 :: v2 :: rest =>
        match stoi v1, stoi v2 with
        | some n1, some n2 =>
          parseArgsAux stoi stod
            { cfg with net_delay_node_mw_min := n1, net_delay_node_mw_max := n2 } rest
        | _, _ => .aborted
      | _ => .failed
    else if a = "--db-delay" then
      match rest with
      | v1 :: v2 :: rest =>
        match stoi v1, stoi v2 with
        | some n1, some n2 =>
          parseArgsAux stoi stod
            { cfg with db_delay_min := n1, db_delay_max := n2 } rest
        | _, _ => .aborted
      | _ => .failed
    else if a = "--fail-percent" then
      match rest with
      | v :: rest =>
        match stod v with
        | some p => parseArgsAux stoi stod { cfg with fail_percent := p } rest
        | none => .aborted
      | [] => .failed
    else if a = "--out" then
      match rest with
      | v :: rest => parseArgsAux stoi stod { cfg with out_file := v } rest
      | [] => .failed
    else if a = "--help" ∨ a = "-h" then .failed
    else .failed

/-- Post-loop normalisation of `parse_args` (final.cpp:165-170): fallback
defaults for non-positive node and worker counts, clamping of both
percentages into `[0,100]`. -/
def clampConfig (cfg : Config) : Config :=
  let cfg := if cfg.nodes ≤ 0 then { cfg with nodes := 1000 } else cfg
  let cfg := if cfg.workers ≤ 0 then { cfg with workers := 1 } else cfg
  let cfg := if cfg.tamper_percent < 0 then { cfg with tamper_percent := 0 } else cfg
  let cfg := if cfg.tamper_percent > 100 then { cfg with tamper_percent := 100 } else cfg
  let cfg := if cfg.fail_percent < 0 then { cfg with fail_percent := 0 } else cfg
  let cfg := if cfg.fail_percent > 100 then { cfg with fail_percent := 100 } else cfg
  cfg

/-- `parse_args` (final.cpp:136-172) on the argument list after the program
name (the loop starts at `i = 1`). -/
def parse_args (stoi : String → Option Int) (stod : String → Option ℚ)
    (args : List String) : ParseOutcome :=
  match parseArgsAux stoi stod {} args with
  | .ok cfg => .ok (clampConfig cfg)
  | r => r

/-- How `main` starts (final.cpp:342-346): when `parse_args` returns
`false`, `main` prints the usage text and returns exit status 1; on success
the simulation proceeds with the parsed `Config`; an uncaught `std::stoi`
exception terminates the process abnormally. -/
inductive MainStart where
  | proceed (cfg : Config)
  | usageExit (usagePrinted : Bool) (status : Int)
  | terminated
deriving DecidableEq

/-- Argument-handling prologue of `main` (final.cpp:342-346). -/
def main_start (stoi : String → Option Int) (stod : String → Option ℚ)
    (args : List String) : MainStart :=
  match parse_args stoi stod args with
  | .ok cfg => .proceed cfg
  | .failed => .usageExit true 1
  | .aborted => .terminated

/-- `median_of_vec` (final.cpp:190-195): sort a copy (`std::sort`, modelled
by insertion sort, which produces the same sorted permutation), take the
middle element for odd length, the truncated-division mean of the two
middle elements for even length, and 0 for the empty vector. -/
def median_of_vec (v : List Int) : Int :=
  if v = [] then 0 else
    let w := List.insertionSort (· ≤ ·) v
    let n := w.length
    if n % 2 = 1 then w.getD (n / 2) 0
    else Int.tdiv (w.getD (n / 2 - 1) 0 + w.getD (n / 2) 0) 2

/-- Accumulator of the aggregation loop in `main` (final.cpp:376-377). -/
structure AggState where
  totals : List Int
  success_cnt : Nat
  drop_cnt : Nat
deriving DecidableEq

/-- One iteration of the aggregation loop in `main` (final.cpp:378-382):
a dropped record bumps the drop counter, any other record pushes its
elapsed time; a successful record bumps the success counter. -/
def agg_step (st : AggState) (m : NodeMetrics) : AggState :=
  let st := if m.dropped then { st with drop_cnt := st.drop_cnt + 1 }
            else { st with totals := st.totals ++ [m.total_us] }
  if m.success then { st with success_cnt := st.success_cnt + 1 } else st

/-- The aggregation loop of `main` (final.cpp:378-382), iterating the
result vector in order. -/
def agg_loop (results : List NodeMetrics) : AggState :=
  results.foldl agg_step { totals := [], success_cnt := 0, drop_cnt := 0 }

/-- The aggregate statistics `main` reports. -/
structure RunSummary where
  avg_total : Int
  min_total : Int
  max_total : Int
  med_total : Int
  success_pct : ℚ
  drop_pct : ℚ
deriving DecidableEq

/-- Aggregate statistics computation in `main` (final.cpp:384-389).  The
C++ `double` percentage expressions are modelled exactly in ℚ; the average
is C++ truncated `long long` division; min/max mirror
`std::min_element`/`std::max_element` as left folds. -/
def computeStats (cfg : Config) (results : List NodeMetrics) : RunSummary :=
  let a := agg_loop results
  { avg_total :=
      match a.totals with
      | [] => 0
      | _ :: _ => Int.tdiv a.totals.sum a.totals.length
    min_total :=
      match a.totals with
      | [] => 0
      | x :: xs => xs.foldl min x
    max_total :=
      match a.totals with
      | [] => 0
      | x :: xs => xs.foldl max x
    med_total := median_of_vec a.totals
    success_pct := if results = [] then 0 else 100 * (a.success_cnt : ℚ) / (cfg.nodes : ℚ)
    drop_pct := if results = [] then 0 else 100 * (a.drop_cnt : ℚ) / (cfg.nodes : ℚ) }

/-- Status of one worker thread inside its claim loop (final.cpp:206-208):
about to claim the counter, processing a claimed node index, or exited. -/
inductive WStatus where
  | idle
  | processing (idx : Nat)
  | done
deriving DecidableEq

/-- Shared state of the run: the atomic claim counter, the mutex-protected
result vector, and the status of each worker thread. -/
structure RunState where
  counter : Nat
  results : List NodeMetrics
  workers : List WStatus
deriving DecidableEq

/-- Start of the run (final.cpp:354-368): counter 0, empty result vector,
`W` spawned workers entering their claim loops. -/
def initState (W : Nat) : RunState :=
  { counter := 0, results := [], workers := List.replicate W .idle }

/-- Node indices currently claimed and in flight. -/
def procIdx (ws : List WStatus) : List Nat :=
  ws.filterMap (fun st => match st with | .processing i => some i | _ => none)

/-- Interleaving semantics of the worker pool (final.cpp:206-282 and
357-370).  `counter.fetch_add(1)` is a single atomic read-modify-write: a
worker either claims the current counter value (when it is below the node
count) or observes exhaustion and exits the loop.  The body of an iteration
ends with one `push_back` under the result mutex, so the append is a single
step interleaved in any order; `sim w i` is the outcome record worker `w`
computes for node `i` (the source sets `node_index = idx` first thing, so
the step forces that field). -/
inductive Step (nodes : Nat) (sim : Nat → Nat → NodeMetrics) :
    RunState → RunState → Prop
  | claim (w : Nat) (s : RunState) (h : s.workers.get? w = some .idle)
      (hlt : s.counter < nodes) :
      Step nodes sim s
        { counter := s.counter + 1, results := s.results,
          workers := s.workers.set w (.processing s.counter) }
  | claimStop (w : Nat) (s : RunState) (h : s.workers.get? w = some .idle)
      (hge : nodes ≤ s.counter) :
      Step nodes sim s
        { counter := s.counter + 1, results := s.results,
          workers := s.workers.set w .done }
  | finish (w i : Nat) (s : RunState)
      (h : s.workers.get? w = some (.processing i)) :
      Step nodes sim s
        { counter := s.counter,
          results := s.results ++ [{ sim w i with node_index := i }],
          workers := s.workers.set w .idle }

/-- States reachable by some scheduling of the workers. -/
def Reachable (nodes W : Nat) (sim : Nat → Nat → NodeMetrics) (s : RunState) : Prop :=
  Relation.ReflTransGen (Step nodes sim) (initState W) s

/-- All workers have exited their loops: the join barrier at final.cpp:370
has released. -/
def Terminal (s : RunState) : Prop := ∀ st ∈ s.workers, st = WStatus.done

instance : DecidablePred Terminal := fun s => by
  unfold Terminal; infer_instance

/-! ## Hex codec lemmas -/

lemma hexVal_hexDigit : ∀ d < 16, hexVal (hexDigit d) = some d := by decide

lemma hexDigit_range (d : Nat) (h : d < 16) :
    (48 ≤ hexDigit d ∧ hexDigit d ≤ 57) ∨ (97 ≤ hexDigit d ∧ hexDigit d ≤ 102) := by
  unfold hexDigit; split <;> omega

lemma toHex_cons (b : Nat) (bs : List Nat) :
    toHex (b :: bs) = hexDigit (b / 16) :: hexDigit (b % 16) :: toHex bs := by
  simp [toHex]

lemma toHex_append (as bs : List Nat) : toHex (as ++ bs) = toHex as ++ toHex bs := by
  simp [toHex]

lemma toHex_length (bs : List Nat) : (toHex bs).length = 2 * bs.length := by
  induction bs with
  | nil => rfl
  | cons b bs ih => rw [toHex_cons]; simp [ih]; omega

lemma mem_toHex_range {x : Nat} {bs : List Nat} (hb : ∀ b ∈ bs, b < 256)
    (hx : x ∈ toHex bs) : (48 ≤ x ∧ x ≤ 57) ∨ (97 ≤ x ∧ x ≤ 102) := by
  induction bs with
  | nil => simp [toHex] at hx
  | cons b bs ih =>
    rw [toHex_cons] at hx
    have h256 : b < 256 := hb b (by simp)
    simp only [List.mem_cons] at hx
    rcases hx with rfl | rfl | hx
    · exact hexDigit_range _ (by omega)
    · exact hexDigit_range _ (Nat.mod_lt _ (by omega))
    · exact ih (fun y hy => hb y (by simp [hy])) hx

lemma fromHex_toHex : ∀ {bs : List Nat}, (∀ b ∈ bs, b < 256) → fromHex (toHex bs) = bs
  | [], _ => rfl
  | b :: bs, h => by
    have hb : b < 256 := h b (by simp)
    have ih : fromHex (toHex bs) = bs :=
      fromHex_toHex (fun y hy => h y (by simp [hy]))
    rw [toHex_cons]
    simp only [fromHex, List.filterMap_cons,
      hexVal_hexDigit (b / 16) (by omega),
      hexVal_hexDigit (b % 16) (Nat.mod_lt _ (by omega))]
    simp only [fromHex] at ih
    rw [pairUp, ih, Nat.div_add_mod]

/-! ## Substring search lemmas -/

lemma isPrefixOf_append_self (l t : List Nat) : l.isPrefixOf (l ++ t) = true := by
  induction l with
  | nil => simp [List.isPrefixOf]
  | cons a l ih => simp [List.isPrefixOf, ih]

lemma findSub_nil (pat : List Nat) :
    findSub [] pat = if pat.isPrefixOf [] then some 0 else none := rfl

lemma findSub_cons (a : Nat) (t pat : List Nat) :
    findSub (a :: t) pat =
      if pat.isPrefixOf (a :: t) then some 0
      else (findSub t pat).map (· + 1) := rfl

lemma findSub_of_no_early (pre pat tl : List Nat)
    (hocc : ∀ p < pre.length, ¬ pat.isPrefixOf ((pre ++ (pat ++ tl)).drop p) = true) :
    findSub (pre ++ (pat ++ tl)) pat = some pre.length := by
  induction pre with
  | nil =>
    simp only [List.nil_append]
    cases pat with
    | nil =>
      cases tl with
      | nil => simp [findSub_nil, List.isPrefixOf]
      | cons x xs =>
        simp only [List.nil_append]
        rw [findSub_cons]
        simp [List.isPrefixOf]
    | cons b bs =>
      simp only [List.cons_append]
      rw [findSub_cons]
      have := isPrefixOf_append_self (b :: bs) tl
      simp only [List.cons_append] at this
      simp [this]
  | cons a pre ih =>
    have h0 := hocc 0 (by simp)
    simp only [List.drop_zero] at h0
    rw [List.cons_append, findSub_cons]
    simp only [List.cons_append] at h0
    rw [if_neg (by simpa using h0)]
    have := ih (fun p hp h => hocc (p + 1) (by simp [hp]) (by simpa using h))
    simp [this]

lemma isPrefixOf_get? {pat l : List Nat} (h : pat.isPrefixOf l = true)
    {j : Nat} (hj : j < pat.length) : l.get? j = pat.get? j := by
  obtain ⟨t, rfl⟩ := List.isPrefixOf_iff_prefix.mp h
  exact List.get?_append hj

lemma findSub_marker (pre pat tl : List Nat) (j c : Nat)
    (hj : pat.get? j = some c) (hjlt : ∀ i < j, pat.get? i ≠ some c)
    (hpre : c ∉ pre) :
    findSub (pre ++ (pat ++ tl)) pat = some pre.length := by
  apply findSub_of_no_early
  intro p hp hprefix
  have hjlen : j < pat.length := List.get?_eq_some.mp hj |>.1
  have hget : (pre ++ (pat ++ tl)).get? (p + j) = some c := by
    have := isPrefixOf_get? hprefix hjlen
    rw [List.get?_drop] at this
    rw [this, hj]
  rcases Nat.lt_or_ge (p + j) pre.length with h | h
  · rw [List.get?_append h] at hget
    exact hpre (List.get?_mem hget)
  · rw [List.get?_append_right h] at hget
    have hlt : p + j - pre.length < j := by omega
    rw [List.get?_append (by omega)] at hget
    exact hjlt _ hlt hget

lemma findSub_single_none {hay : List Nat} {c : Nat} (h : c ∉ hay) :
    findSub hay [c] = none := by
  induction hay with
  | nil => rfl
  | cons a t ih =>
    rw [findSub_cons]
    have hca : ¬ c = a := fun hc => h (by simp [hc])
    have : ([c].isPrefixOf (a :: t)) = false := by
      simp [List.isPrefixOf, hca, beq_false_of_ne hca]
    rw [this]
    simp [ih (fun hc => h (by simp [hc]))]

/-! ## CBC and padding lemmas -/

lemma xorB_length (a b : List Nat) : (xorB a b).length = min a.length b.length := by
  simp [xorB]

lemma xorB_xorB : ∀ (a b : List Nat), b.length ≤ a.length → xorB a (xorB a b) = b
  | _, [], _ => by simp [xorB]
  | [], _ :: _, h => by simp at h
  | y :: ys, x :: xs, h => by
    simp only [xorB, List.zipWith_cons_cons]
    rw [show y ^^^ (y ^^^ x) = x by rw [← Nat.xor_assoc, Nat.xor_self, Nat.zero_xor]]
    have := xorB_xorB ys xs (by simpa using h)
    simp only [xorB] at this
    rw [this]

lemma xorB_lt : ∀ (a b : List Nat), (∀ x ∈ a, x < 256) → (∀ x ∈ b, x < 256) →
    ∀ x ∈ xorB a b, x < 256
  | [], _, _, _ => by simp [xorB]
  | _ :: _, [], _, _ => by simp [xorB]
  | y :: ys, x :: xs, ha, hb => by
    simp only [xorB, List.zipWith_cons_cons, List.mem_cons]
    rintro z (rfl | hz)
    · have h1 : y < 2 ^ 8 := ha y (by simp)
      have h2 : x < 2 ^ 8 := hb x (by simp)
      simpa using Nat.xor_lt_two_pow h1 h2
    · exact xorB_lt ys xs (fun u hu => ha u (by simp [hu]))
        (fun u hu => hb u (by simp [hu])) z hz

lemma xorB_good {a b : List Nat} (ha : GoodBlock a) (hb : GoodBlock b) :
    GoodBlock (xorB a b) := by
  refine ⟨by simp [xorB_length, ha.1, hb.1], xorB_lt a b ha.2 hb.2⟩

lemma cbc_aux (E D : List Nat → List Nat)
    (hED : ∀ b, GoodBlock b → D (E b) = b ∧ GoodBlock (E b)) :
    ∀ (fuel : Nat) (m prev : List Nat), m.length ≤ fuel → 16 ∣ m.length →
      GoodBlock prev → (∀ x ∈ m, x < 256) →
      (cbcEncAux E fuel prev m).length = m.length ∧
      (∀ x ∈ cbcEncAux E fuel prev m, x < 256) ∧
      ∀ fuel2, m.length ≤ fuel2 →
        cbcDecAux D fuel2 prev (cbcEncAux E fuel prev m) = m := by
  intro fuel
  induction fuel with
  | zero =>
    intro m prev hle _ _ _
    have hm : m = [] := List.length_eq_zero.mp (Nat.le_zero.mp hle)
    subst hm
    refine ⟨rfl, by simp [cbcEncAux], ?_⟩
    intro fuel2 _
    cases fuel2 <;> simp [cbcEncAux, cbcDecAux]
  | succ fuel ih =>
    intro m prev hle hdvd hprev hm
    by_cases hnil : m = []
    · subst hnil
      refine ⟨rfl, by simp [cbcEncAux], ?_⟩
      intro fuel2 _
      cases fuel2 <;> simp [cbcEncAux, cbcDecAux]
    · have hlen0 : m.length ≠ 0 := fun h => hnil (List.length_eq_zero.mp h)
      have hlen16 : 16 ≤ m.length := by
        rcases hdvd with ⟨k, hk⟩
        rcases Nat.eq_zero_or_pos k with rfl | hkpos
        · omega
        · omega
      have htake : GoodBlock (m.take 16) :=
        ⟨by simp [List.length_take]; omega,
         fun x hx => hm x (List.mem_of_mem_take hx)⟩
      have hxor : GoodBlock (xorB prev (m.take 16)) := xorB_good hprev htake
      have hc := hED _ hxor
      set c := E (xorB prev (m.take 16)) with hcdef
      have hdrop_len : (m.drop 16).length = m.length - 16 := by simp
      have hdrop_le : (m.drop 16).length ≤ fuel := by omega
      have hdrop_dvd : 16 ∣ (m.drop 16).length := by
        rw [hdrop_len]; exact (Nat.dvd_sub' hdvd (dvd_refl 16))
      have hdrop_mem : ∀ x ∈ m.drop 16, x < 256 :=
        fun x hx => hm x (List.mem_of_mem_drop hx)
      obtain ⟨ihlen, ihmem, ihdec⟩ := ih (m.drop 16) c hdrop_le hdrop_dvd hc.2 hdrop_mem
      have henc : cbcEncAux E (fuel + 1) prev m =
          c ++ cbcEncAux E fuel c (m.drop 16) := by
        rw [cbcEncAux]; simp [hnil]
      refine ⟨?_, ?_, ?_⟩
      · rw [henc]; simp [hc.2.1, ihlen]; omega
      · rw [henc]
        intro x hx
        rcases List.mem_append.mp hx with hx | hx
        · exact hc.2.2 x hx
        · exact ihmem x hx
      · intro fuel2 hf2
        have hf2pos : 0 < fuel2 := by omega
        have hex : ∃ k, fuel2 = k + 1 := Nat.exists_eq_succ_of_ne_zero (by omega)
        obtain ⟨f2, rfl⟩ := hex
        rw [henc, cbcDecAux]
        have hcne : c ++ cbcEncAux E fuel c (m.drop 16) ≠ [] := by
          intro h
          have := congrArg List.length h
          simp [hc.2.1] at this
        simp only [hcne, if_false]
        have htake_c : (c ++ cbcEncAux E fuel c (m.drop 16)).take 16 = c := by
          rw [← hc.2.1, List.take_left]
        have hdrop_c : (c ++ cbcEncAux E fuel c (m.drop 16)).drop 16 =
            cbcEncAux E fuel c (m.drop 16) := by
          rw [← hc.2.1, List.drop_left]
        rw [htake_c, hdrop_c, hc.1, xorB_xorB prev (m.take 16) (by rw [htake.1, hprev.1]),
          ihdec f2 (by rw [hdrop_len]; omega), List.take_append_drop]

lemma cbcEnc_length (E D : List Nat → List Nat)
    (hED : ∀ b, GoodBlock b → D (E b) = b ∧ GoodBlock (E b))
    (m prev : List Nat) (hdvd : 16 ∣ m.length) (hprev : GoodBlock prev)
    (hm : ∀ x ∈ m, x < 256) : (cbcEnc E prev m).length = m.length :=
  (cbc_aux E D hED m.length m prev le_rfl hdvd hprev hm).1

lemma cbcEnc_mem (E D : List Nat → List Nat)
    (hED : ∀ b, GoodBlock b → D (E b) = b ∧ GoodBlock (E b))
    (m prev : List Nat) (hdvd : 16 ∣ m.length) (hprev : GoodBlock prev)
    (hm : ∀ x ∈ m, x < 256) : ∀ x ∈ cbcEnc E prev m, x < 256 :=
  (cbc_aux E D hED m.length m prev le_rfl hdvd hprev hm).2.1

lemma cbcDec_cbcEnc (E D : List Nat → List Nat)
    (hED : ∀ b, GoodBlock b → D (E b) = b ∧ GoodBlock (E b))
    (m prev : List Nat) (hdvd : 16 ∣ m.length) (hprev : GoodBlock prev)
    (hm : ∀ x ∈ m, x < 256) : cbcDec D prev (cbcEnc E prev m) = m := by
  obtain ⟨hlen, _, hdec⟩ := cbc_aux E D hED m.length m prev le_rfl hdvd hprev hm
  unfold cbcDec cbcEnc at *
  rw [hlen]
  exact hdec m.length le_rfl

lemma pkcs7pad_pos_le (m : List Nat) :
    1 ≤ 16 - m.length % 16 ∧ 16 - m.length % 16 ≤ 16 := by
  have := Nat.mod_lt m.length (show 0 < 16 by omega)
  omega

lemma pkcs7pad_length (m : List Nat) :
    (pkcs7pad m).length = m.length + (16 - m.length % 16) := by
  simp [pkcs7pad]

lemma pkcs7pad_dvd (m : List Nat) : 16 ∣ (pkcs7pad m).length := by
  rw [pkcs7pad_length]
  have h1 : m.length % 16 < 16 := Nat.mod_lt _ (by omega)
  have h2 := Nat.div_add_mod m.length 16
  exact ⟨m.length / 16 + 1, by omega⟩

lemma pkcs7pad_ne_nil (m : List Nat) : pkcs7pad m ≠ [] := by
  intro h
  have h1 := congrArg List.length h
  rw [pkcs7pad_length] at h1
  have h2 := (pkcs7pad_pos_le m).1
  simp at h1
  omega

lemma pkcs7pad_mem (m : List Nat) (hm : ∀ x ∈ m, x < 256) :
    ∀ x ∈ pkcs7pad m, x < 256 := by
  intro x hx
  rcases List.mem_append.mp hx with hx | hx
  · exact hm x hx
  · have := List.eq_of_mem_replicate hx
    subst this
    have := (pkcs7pad_pos_le m).2
    omega

lemma pkcs7unpad_pad (m : List Nat) : pkcs7unpad (pkcs7pad m) = some m := by
  have hp := pkcs7pad_pos_le m
  set p := 16 - m.length % 16 with hpdef
  have hrep : pkcs7pad m = m ++ List.replicate p p := rfl
  have hlast : (pkcs7pad m).getLast? = some p := by
    rw [hrep]
    obtain ⟨q, hq⟩ := Nat.exists_eq_succ_of_ne_zero (show p ≠ 0 by omega)
    rw [hq, List.replicate_succ', ← List.append_assoc, List.getLast?_concat]
  have hlen : (pkcs7pad m).length = m.length + p := by rw [pkcs7pad_length]
  have hdrop : (pkcs7pad m).drop ((pkcs7pad m).length - p) = List.replicate p p := by
    rw [hrep, List.length_append, List.length_replicate, Nat.add_sub_cancel,
      List.drop_left]
  have htake : (pkcs7pad m).take ((pkcs7pad m).length - p) = m := by
    rw [hrep, List.length_append, List.length_replicate, Nat.add_sub_cancel,
      List.take_left]
  rw [pkcs7unpad, hlast]
  simp only
  rw [if_pos]
  · rw [htake]
  · refine ⟨by omega, by omega, by omega, ?_⟩
    rw [hdrop]
    simp [List.all_eq_true]

/-! ## Wire-format round trip -/

lemma mem_toHex_ne {x : Nat} {bs : List Nat} (hb : ∀ b ∈ bs, b < 256)
    (hx : x ∈ toHex bs) {c : Nat}
    (hc : (c < 48 ∨ (57 < c ∧ c < 97) ∨ 102 < c)) : x ≠ c := by
  rcases mem_toHex_range hb hx with ⟨h1, h2⟩ | ⟨h1, h2⟩ <;> omega

lemma aes_round_trip (E D : List Nat → List Nat)
    (hED : ∀ b, GoodBlock b → D (E b) = b ∧ GoodBlock (E b))
    (iv plain : List Nat) (hiv : GoodBlock iv) (hp : ∀ x ∈ plain, x < 256) :
    aesDecryptHex D (aesEncryptHex E iv plain) = Except.ok plain := by
  have hpad_mem := pkcs7pad_mem plain hp
  have hpad_dvd := pkcs7pad_dvd plain
  have hcipher_mem := cbcEnc_mem E D hED (pkcs7pad plain) iv hpad_dvd hiv hpad_mem
  have hcipher_len := cbcEnc_length E D hED (pkcs7pad plain) iv hpad_dvd hiv hpad_mem
  set cipher := cbcEnc E iv (pkcs7pad plain) with hcdef
  have hwire : aesEncryptHex E iv plain = toHex iv ++ ([58] ++ toHex cipher) := by
    simp [aesEncryptHex, hcdef]
  have hfind : findSub (toHex iv ++ ([58] ++ toHex cipher)) [58] =
      some (toHex iv).length := by
    apply findSub_marker (toHex iv) [58] (toHex cipher) 0 58 rfl
      (by intro i hi; omega)
    intro hmem
    exact mem_toHex_ne hiv.2 hmem (by omega) rfl
  rw [aesDecryptHex, hwire, hfind]
  have htake : (toHex iv ++ ([58] ++ toHex cipher)).take (toHex iv).length = toHex iv :=
    List.take_left _ _
  have hdrop : (toHex iv ++ ([58] ++ toHex cipher)).drop ((toHex iv).length + 1) =
      toHex cipher := by
    rw [show toHex iv ++ ([58] ++ toHex cipher) = (toHex iv ++ [58]) ++ toHex cipher by
      simp]
    rw [show (toHex iv).length + 1 = (toHex iv ++ [58]).length by simp]
    exact List.drop_left _ _
  simp only [htake, hdrop]
  rw [fromHex_toHex hiv.2, fromHex_toHex hcipher_mem]
  have hivlen : ¬ iv.length < 16 := by rw [hiv.1]; omega
  rw [if_neg hivlen]
  have hclen : ¬ (cipher.length = 0 ∨ cipher.length % 16 ≠ 0) := by
    rw [hcipher_len]
    have h1 := pkcs7pad_ne_nil plain
    have h2 : (pkcs7pad plain).length ≠ 0 := fun h => h1 (List.length_eq_zero.mp h)
    obtain ⟨k, hk⟩ := hpad_dvd
    push_neg
    constructor
    · exact h2
    · omega
  rw [if_neg hclen]
  have hiv_take : iv.take 16 = iv := by rw [← hiv.1]; exact List.take_length iv
  rw [hiv_take, cbcDec_cbcEnc E D hED _ _ hpad_dvd hiv hpad_mem, pkcs7unpad_pad]

/-! ## Payload structure lemmas -/

lemma natDecAux_digits : ∀ (fuel n : Nat), ∀ x ∈ natDecAux fuel n, 48 ≤ x ∧ x ≤ 57
  | 0, n => by
    have : n % 10 < 10 := Nat.mod_lt _ (by omega)
    simp [natDecAux]; omega
  | fuel + 1, n => by
    rw [natDecAux]
    split
    · next h => simp; omega
    · next h =>
      intro x hx
      rcases List.mem_append.mp hx with hx | hx
      · exact natDecAux_digits fuel (n / 10) x hx
      · have : n % 10 < 10 := Nat.mod_lt _ (by omega)
        simp at hx; omega

lemma natDec_digits (n : Nat) : ∀ x ∈ natDec n, 48 ≤ x ∧ x ≤ 57 :=
  natDecAux_digits n n

lemma node_id_range (idx : Nat) :
    ∀ x ∈ NODE_ID_BASE ++ natDec idx, (45 ≤ x ∧ x ≤ 57) ∨ (100 ≤ x ∧ x ≤ 111) := by
  intro x hx
  rcases List.mem_append.mp hx with hx | hx
  · revert hx
    have h : ∀ y ∈ NODE_ID_BASE, (45 ≤ y ∧ y ≤ 57) ∨ (100 ≤ y ∧ y ≤ 111) := by decide
    exact fun hx => h x hx
  · have h := natDec_digits idx x hx
    exact Or.inl ⟨by omega, h.2⟩

lemma tok_hex_range {raw : List Nat} (hraw : ∀ b ∈ raw, b < 256) :
    ∀ x ∈ genTokenHex raw, (48 ≤ x ∧ x ≤ 57) ∨ (97 ≤ x ∧ x ≤ 102) :=
  fun x hx => mem_toHex_range hraw hx

lemma findSub_of_isPrefixOf {hay pat : List Nat} (h : pat.isPrefixOf hay = true) :
    findSub hay pat = some 0 := by
  cases hay with
  | nil => rw [findSub_nil, if_pos h]
  | cons a t => rw [findSub_cons, if_pos h]

lemma extractAfterToken_split (pre tok : List Nat) (j c : Nat)
    (hj : (strBytes "TOKEN:").get? j = some c)
    (hjlt : ∀ i < j, (strBytes "TOKEN:").get? i ≠ some c)
    (hpre : c ∉ pre) :
    extractAfterToken (pre ++ (strBytes "TOKEN:" ++ tok)) = tok := by
  unfold extractAfterToken
  rw [findSub_marker pre _ tok j c hj hjlt hpre]
  show (pre ++ (strBytes "TOKEN:" ++ tok)).drop (pre.length + 6) = tok
  have hlen : (strBytes "TOKEN:").length = 6 := by decide
  rw [show pre ++ (strBytes "TOKEN:" ++ tok) = (pre ++ strBytes "TOKEN:") ++ tok by
      simp,
    show pre.length + 6 = (pre ++ strBytes "TOKEN:").length by simp [hlen]]
  exact List.drop_left _ _

lemma ta_node_payload_extract (idx : Nat) (tok : List Nat) :
    extractAfterToken (strBytes "NODE_ID:" ++ (NODE_ID_BASE ++ natDec idx) ++
      strBytes ";TOKEN:" ++ tok) = tok := by
  have hsplit : strBytes "NODE_ID:" ++ (NODE_ID_BASE ++ natDec idx) ++
      strBytes ";TOKEN:" ++ tok =
      (strBytes "NODE_ID:" ++ (NODE_ID_BASE ++ natDec idx) ++ [59]) ++
        (strBytes "TOKEN:" ++ tok) := by
    rw [show strBytes ";TOKEN:" = 59 :: strBytes "TOKEN:" from by decide]
    simp
  rw [hsplit]
  apply extractAfterToken_split _ _ 0 84 (by decide) (by intro i hi; omega)
  intro hmem
  simp only [List.append_assoc, List.mem_append] at hmem
  rcases hmem with hmem | hmem | hmem | hmem
  · revert hmem; decide
  · revert hmem; decide
  · have h := natDec_digits idx 84 hmem; omega
  · simp at hmem

lemma ta_mw_payload_extract (idx : Nat) (tok : List Nat) :
    extractAfterToken (strBytes "MW_EXPECTS_NODE:" ++ (NODE_ID_BASE ++ natDec idx) ++
      strBytes ";TOKEN:" ++ tok) = tok := by
  have hsplit : strBytes "MW_EXPECTS_NODE:" ++ (NODE_ID_BASE ++ natDec idx) ++
      strBytes ";TOKEN:" ++ tok =
      (strBytes "MW_EXPECTS_NODE:" ++ (NODE_ID_BASE ++ natDec idx) ++ [59]) ++
        (strBytes "TOKEN:" ++ tok) := by
    rw [show strBytes ";TOKEN:" = 59 :: strBytes "TOKEN:" from by decide]
    simp
  rw [hsplit]
  apply extractAfterToken_split _ _ 2 75 (by decide) (by decide)
  intro hmem
  simp only [List.append_assoc, List.mem_append] at hmem
  rcases hmem with hmem | hmem | hmem | hmem
  · revert hmem; decide
  · revert hmem; decide
  · have h := natDec_digits idx 75 hmem; omega
  · simp at hmem

lemma mwValidate_request (idx : Nat) (tok payload ta_token : List Nat)
    (htok : ∀ x ∈ tok, (48 ≤ x ∧ x ≤ 57) ∨ (97 ≤ x ∧ x ≤ 102)) :
    mwValidate (strBytes "HEADER[" ++
        (strBytes "NODE_ID:" ++ (NODE_ID_BASE ++ natDec idx) ++
          strBytes ";TOKEN:" ++ tok) ++
        strBytes "]|BODY[" ++ payload ++ strBytes "]") ta_token =
      (tok == ta_token) := by
  set header := strBytes "NODE_ID:" ++ (NODE_ID_BASE ++ natDec idx) ++
      strBytes ";TOKEN:" ++ tok with hheader
  have hne93 : (93 : Nat) ∉ header := by
    intro hmem
    rw [hheader] at hmem
    simp only [List.append_assoc, List.mem_append] at hmem
    rcases hmem with hmem | hmem | hmem | hmem | hmem
    · revert hmem; decide
    · revert hmem; decide
    · have h := natDec_digits idx 93 hmem; omega
    · revert hmem; decide
    · rcases htok 93 hmem with ⟨h1, h2⟩ | ⟨h1, h2⟩ <;> omega
  have hsplit : strBytes "HEADER[" ++ header ++ strBytes "]|BODY[" ++ payload ++
      strBytes "]" =
      strBytes "HEADER[" ++ (header ++
        ([93] ++ (strBytes "|BODY[" ++ payload ++ [93]))) := by
    rw [show strBytes "]|BODY[" = 93 :: strBytes "|BODY[" from by decide,
      show strBytes "]" = [93] from by decide]
    simp
  rw [hsplit]
  set rest := strBytes "|BODY[" ++ payload ++ [93] with hrest
  set req := strBytes "HEADER[" ++ (header ++ ([93] ++ rest)) with hreq
  have hfindH : findSub req (strBytes "HEADER[") = some 0 :=
    findSub_of_isPrefixOf (by rw [hreq]; exact isPrefixOf_append_self _ _)
  have hdrop7 : req.drop 7 = header ++ ([93] ++ rest) := by
    rw [hreq, show (7 : Nat) = (strBytes "HEADER[").length from by decide]
    exact List.drop_left _ _
  have hfindB : findSubFrom req (strBytes "]") 7 = some (header.length + 7) := by
    unfold findSubFrom
    rw [hdrop7, show strBytes "]" = [93] from by decide,
      findSub_marker header [93] rest 0 93 rfl (by intro i hi; omega) hne93]
    rfl
  simp only [mwValidate, hfindH, hfindB, Nat.zero_add, Nat.add_sub_cancel]
  rw [hdrop7, List.take_left header ([93] ++ rest), hheader, ta_node_payload_extract]

/-! ## Per-node simulation lemmas -/

lemma except_bind_ok {α β : Type} (a : α) (f : α → Except String β) :
    (Except.ok a : Except String α) >>= f = f a := rfl

lemma ta_node_payload_lt (idx : Nat) {tok : List Nat}
    (htok : ∀ x ∈ tok, (48 ≤ x ∧ x ≤ 57) ∨ (97 ≤ x ∧ x ≤ 102)) :
    ∀ x ∈ strBytes "NODE_ID:" ++ (NODE_ID_BASE ++ natDec idx) ++
      strBytes ";TOKEN:" ++ tok, x < 256 := by
  intro x hx
  simp only [List.append_assoc, List.mem_append] at hx
  rcases hx with hx | hx | hx | hx | hx
  · revert x hx; decide
  · revert x hx; decide
  · have h := natDec_digits idx x hx; omega
  · revert x hx; decide
  · rcases htok x hx with ⟨h1, h2⟩ | ⟨h1, h2⟩ <;> omega

lemma ta_mw_payload_lt (idx : Nat) {tok : List Nat}
    (htok : ∀ x ∈ tok, (48 ≤ x ∧ x ≤ 57) ∨ (97 ≤ x ∧ x ≤ 102)) :
    ∀ x ∈ strBytes "MW_EXPECTS_NODE:" ++ (NODE_ID_BASE ++ natDec idx) ++
      strBytes ";TOKEN:" ++ tok, x < 256 := by
  intro x hx
  simp only [List.append_assoc, List.mem_append] at hx
  rcases hx with hx | hx | hx | hx | hx
  · revert x hx; decide
  · revert x hx; decide
  · have h := natDec_digits idx x hx; omega
  · revert x hx; decide
  · rcases htok x hx with ⟨h1, h2⟩ | ⟨h1, h2⟩ <;> omega

lemma full_request_lt (idx : Nat) (n : Nat) {tok : List Nat}
    (htok : ∀ x ∈ tok, (48 ≤ x ∧ x ≤ 57) ∨ (97 ≤ x ∧ x ≤ 102)) :
    ∀ x ∈ strBytes "HEADER[" ++
      (strBytes "NODE_ID:" ++ (NODE_ID_BASE ++ natDec idx) ++
        strBytes ";TOKEN:" ++ tok) ++
      strBytes "]|BODY[" ++ List.replicate n (65 + idx % 26) ++ strBytes "]",
      x < 256 := by
  intro x hx
  simp only [List.append_assoc, List.mem_append] at hx
  rcases hx with hx | hx | hx | hx | hx | hx | hx | hx | hx
  · revert x hx; decide
  · revert x hx; decide
  · revert x hx; decide
  · have h := natDec_digits idx x hx; omega
  · revert x hx; decide
  · rcases htok x hx with ⟨h1, h2⟩ | ⟨h1, h2⟩ <;> omega
  · revert x hx; decide
  · have h := List.eq_of_mem_replicate hx
    have h26 : idx % 26 < 26 := Nat.mod_lt _ (by omega)
    omega
  · revert x hx; decide

/-- The dropped path of the worker body (final.cpp:221-228): when the
uniform draw falls below `fail_percent / 100`, the outcome is recorded
immediately with `dropped = true` and the default `success = false`. -/
lemma simulateNode_dropped (C : BlockCipher) (cfg : Config) (idx : Nat)
    (r : NodeRand) (hfail : r.failDraw < cfg.fail_percent / 100) :
    simulateNode C cfg idx r =
      Except.ok { node_index := idx, total_us := r.elapsedDrop,
                  success := false, dropped := true } := by
  unfold simulateNode
  rw [if_pos hfail]

/-- The completed path of the worker body (final.cpp:231-281): with a sound
cipher and well-formed entropy, every decryption round-trips, and the
outcome's success flag is exactly the byte equality between the (possibly
tampered) submitted token and the issued token. -/
lemma simulateNode_completed (C : BlockCipher) (cfg : Config) (idx : Nat)
    (r : NodeRand) (hC : C.Sound) (hr : ValidRand r)
    (hfail : ¬ (r.failDraw < cfg.fail_percent / 100)) :
    simulateNode C cfg idx r =
      Except.ok { node_index := idx, total_us := r.elapsedFull,
                  success := (maybeTamper cfg r.tamperDraw r.tamperBytes
                    (genTokenHex r.tokenBytes) == genTokenHex r.tokenBytes),
                  dropped := false } := by
  obtain ⟨hf0, hf1, ht0, ht1, htok16, htokB, htam8, htamB, hivN, hivM, hivR⟩ := hr
  have htokHex : ∀ x ∈ genTokenHex r.tokenBytes,
      (48 ≤ x ∧ x ≤ 57) ∨ (97 ≤ x ∧ x ≤ 102) := tok_hex_range htokB
  have htamHex : ∀ x ∈ maybeTamper cfg r.tamperDraw r.tamperBytes
      (genTokenHex r.tokenBytes), (48 ≤ x ∧ x ≤ 57) ∨ (97 ≤ x ∧ x ≤ 102) := by
    unfold maybeTamper
    split
    · exact tok_hex_range htamB
    · exact htokHex
  unfold simulateNode TA_issue_tokens_for_node
  rw [if_neg hfail]
  simp only [NODE_ID_BASE]
  rw [aes_round_trip (C.enc KEY_TA_NODE) (C.dec KEY_TA_NODE) (hC KEY_TA_NODE)
      r.ivNode _ hivN (by
        simpa using ta_node_payload_lt idx htokHex),
    except_bind_ok]
  rw [show strBytes "node-" = NODE_ID_BASE from rfl]
  rw [ta_node_payload_extract idx (genTokenHex r.tokenBytes)]
  rw [aes_round_trip (C.enc KEY_TA_MW) (C.dec KEY_TA_MW) (hC KEY_TA_MW)
      r.ivMw _ hivM (by
        simpa using ta_mw_payload_lt idx htokHex),
    except_bind_ok]
  rw [ta_mw_payload_extract idx (genTokenHex r.tokenBytes)]
  rw [aes_round_trip (C.enc KEY_NODE_MW) (C.dec KEY_NODE_MW) (hC KEY_NODE_MW)
      r.ivReq _ hivR (by
        simpa using full_request_lt idx cfg.payload_bytes.toNat htamHex),
    except_bind_ok]
  rw [mwValidate_request idx _ _ _ htamHex]

/-! ## Worker-pool invariant -/

/-- Multiset of node indices accounted for: already collected plus in
flight. -/
def claimedSet (s : RunState) : Multiset Nat :=
  (↑(s.results.map NodeMetrics.node_index) : Multiset Nat) + ↑(procIdx s.workers)

/-- Run invariant: the accounted-for indices are exactly the claimed window
`[0, min counter nodes)`, each exactly once; a finished worker proves the
counter has passed the node count; the worker list never changes length. -/
def Inv (nodes W : Nat) (s : RunState) : Prop :=
  claimedSet s = ↑(List.range (min s.counter nodes)) ∧
  (∀ st ∈ s.workers, st = WStatus.done → nodes ≤ s.counter) ∧
  s.workers.length = W

lemma procIdx_append (l₁ l₂ : List WStatus) :
    procIdx (l₁ ++ l₂) = procIdx l₁ ++ procIdx l₂ :=
  List.filterMap_append _ _ _

/-- The in-flight contribution of a single worker slot. -/
def optIdx : WStatus → List Nat
  | .processing i => [i]
  | _ => []

lemma procIdx_cons (st : WStatus) (l : List WStatus) :
    procIdx (st :: l) = optIdx st ++ procIdx l := by
  cases st <;> simp [procIdx, optIdx, List.filterMap_cons]

lemma workers_decomp {ws : List WStatus} {w : Nat} {a : WStatus}
    (h : ws.get? w = some a) :
    ws = ws.take w ++ a :: ws.drop (w + 1) := by
  obtain ⟨hlt, hget⟩ := List.get?_eq_some.mp h
  conv_lhs => rw [← List.take_append_drop w ws]
  rw [List.drop_eq_getElem_cons hlt]
  rw [List.get_eq_getElem] at hget
  rw [hget]

lemma workers_set {ws : List WStatus} {w : Nat} {a : WStatus}
    (h : ws.get? w = some a) (b : WStatus) :
    ws.set w b = ws.take w ++ b :: ws.drop (w + 1) :=
  List.set_eq_take_cons_drop b (List.get?_eq_some.mp h).1

lemma procIdx_set {ws : List WStatus} {w : Nat} {a : WStatus}
    (h : ws.get? w = some a) (b : WStatus) :
    (↑(procIdx (ws.set w b)) : Multiset Nat) + ↑(optIdx a) =
      ↑(procIdx ws) + ↑(optIdx b) := by
  have hws := workers_decomp h
  have hset := workers_set h b
  rw [hset]
  conv_rhs => rw [hws]
  rw [procIdx_append, procIdx_cons, procIdx_append, procIdx_cons]
  simp only [← Multiset.coe_add]
  abel

lemma done_mem_set {ws : List WStatus} {w : Nat} {a b : WStatus}
    (h : ws.get? w = some a) (hb : b ≠ WStatus.done)
    (hmem : WStatus.done ∈ ws.set w b) : WStatus.done ∈ ws := by
  rw [workers_set h b] at hmem
  rw [workers_decomp h]
  rcases List.mem_append.mp hmem with h1 | h1
  · exact List.mem_append.mpr (Or.inl h1)
  · rcases List.mem_cons.mp h1 with h2 | h2
    · exact absurd h2.symm hb
    · exact List.mem_append.mpr (Or.inr (List.mem_cons.mpr (Or.inr h2)))

lemma inv_init (nodes W : Nat) : Inv nodes W (initState W) := by
  refine ⟨?_, ?_, by simp [initState]⟩
  · have hproc : procIdx (List.replicate W .idle) = [] := by
      induction W with
      | zero => rfl
      | succ n ih => simp [List.replicate_succ, procIdx_cons, optIdx, ih]
    simp [claimedSet, initState, hproc]
  · intro st hst hdone
    have := List.eq_of_mem_replicate hst
    subst this
    cases hdone

lemma inv_step {nodes W : Nat} {sim : Nat → Nat → NodeMetrics} {s s' : RunState}
    (hstep : Step nodes sim s s') (hinv : Inv nodes W s) : Inv nodes W s' := by
  obtain ⟨hclaim, hdone, hlen⟩ := hinv
  unfold claimedSet at hclaim
  cases hstep with
  | claim w s h hlt =>
    have hps := procIdx_set h (.processing s.counter)
    have hmin : min s.counter nodes = s.counter := by omega
    have hmin' : min (s.counter + 1) nodes = s.counter + 1 := by omega
    rw [hmin] at hclaim
    refine ⟨?_, ?_, ?_⟩
    · show (↑(List.map NodeMetrics.node_index s.results) : Multiset Nat) +
        ↑(procIdx (s.workers.set w (.processing s.counter))) =
        ↑(List.range (min (s.counter + 1) nodes))
      simp only [optIdx] at hps
      rw [hmin', List.range_succ]
      have hps' : (↑(procIdx (s.workers.set w (.processing s.counter))) : Multiset Nat) =
          ↑(procIdx s.workers) + ↑([s.counter]) := by
        simpa using hps
      rw [hps']
      simp only [← Multiset.coe_add]
      rw [← hclaim]
      abel
    · show ∀ st ∈ s.workers.set w (.processing s.counter),
        st = WStatus.done → nodes ≤ s.counter + 1
      intro st hst hd
      subst hd
      have hmem := done_mem_set h (by simp) hst
      have := hdone _ hmem rfl
      omega
    · show (s.workers.set w (.processing s.counter)).length = W
      simpa using hlen
  | claimStop w s h hge =>
    have hps := procIdx_set h .done
    have hmin : min s.counter nodes = nodes := by omega
    have hmin' : min (s.counter + 1) nodes = nodes := by omega
    rw [hmin] at hclaim
    refine ⟨?_, ?_, ?_⟩
    · show (↑(List.map NodeMetrics.node_index s.results) : Multiset Nat) +
        ↑(procIdx (s.workers.set w .done)) = ↑(List.range (min (s.counter + 1) nodes))
      simp only [optIdx] at hps
      rw [hmin']
      have : (↑(procIdx (s.workers.set w .done)) : Multiset Nat) =
          ↑(procIdx s.workers) := by simpa using hps
      rw [this, hclaim]
    · show ∀ st ∈ s.workers.set w .done, st = WStatus.done → nodes ≤ s.counter + 1
      intro st hst hd
      omega
    · show (s.workers.set w .done).length = W
      simpa using hlen
  | finish w i s h =>
    have hps := procIdx_set h .idle
    refine ⟨?_, ?_, ?_⟩
    · show (↑(List.map NodeMetrics.node_index
          (s.results ++ [{ sim w i with node_index := i }])) : Multiset Nat) +
        ↑(procIdx (s.workers.set w .idle)) = ↑(List.range (min s.counter nodes))
      simp only [optIdx] at hps
      rw [List.map_append]
      rw [show List.map NodeMetrics.node_index
          [({ sim w i with node_index := i } : NodeMetrics)] = [i] from rfl]
      have hps' : (↑(procIdx (s.workers.set w .idle)) : Multiset Nat) + ↑([i]) =
          ↑(procIdx s.workers) := by simpa using hps
      simp only [← Multiset.coe_add]
      rw [← hclaim, ← hps']
      abel
    · show ∀ st ∈ s.workers.set w .idle, st = WStatus.done → nodes ≤ s.counter
      intro st hst hd
      subst hd
      have hmem := done_mem_set h (by simp) hst
      exact hdone _ hmem rfl
    · show (s.workers.set w .idle).length = W
      simpa using hlen

lemma inv_reachable {nodes W : Nat} {sim : Nat → Nat → NodeMetrics} {s : RunState}
    (h : Reachable nodes W sim s) : Inv nodes W s := by
  induction h with
  | refl => exact inv_init nodes W
  | tail _ hstep ih => exact inv_step hstep ih

lemma procIdx_of_terminal {s : RunState} (h : Terminal s) : procIdx s.workers = [] := by
  have : ∀ ws : List WStatus, (∀ st ∈ ws, st = WStatus.done) → procIdx ws = [] := by
    intro ws
    induction ws with
    | nil => intro _; rfl
    | cons a l ih =>
      intro hall
      have ha := hall a (by simp)
      subst ha
      rw [procIdx_cons]
      simp [optIdx, ih (fun st hst => hall st (by simp [hst]))]
  exact this s.workers h

/-- Completeness of a terminal run: one record per node index, no
duplicates, no gaps. -/
lemma terminal_perm {nodes W : Nat} {sim : Nat → Nat → NodeMetrics}
    {s : RunState} (hreach : Reachable nodes W sim s) (hterm : Terminal s)
    (hW : 0 < W) :
    (s.results.map NodeMetrics.node_index).Perm (List.range nodes) := by
  obtain ⟨hclaim, hdone, hlen⟩ := inv_reachable hreach
  have hproc := procIdx_of_terminal hterm
  have hne : s.workers ≠ [] := by
    intro h
    rw [h] at hlen
    simp at hlen
    omega
  obtain ⟨st, hst⟩ := List.exists_mem_of_ne_nil s.workers hne
  have hge : nodes ≤ s.counter := hdone st hst (hterm st hst)
  have hmin : min s.counter nodes = nodes := by omega
  unfold claimedSet at hclaim
  rw [hproc, hmin] at hclaim
  simp only [Multiset.coe_nil, add_zero] at hclaim
  exact Multiset.coe_eq_coe.mp hclaim

/-! ## Aggregation lemmas -/

lemma agg_foldl (results : List NodeMetrics) : ∀ st : AggState,
    results.foldl agg_step st =
      { totals := st.totals ++
          (results.filter (fun m => !m.dropped)).map NodeMetrics.total_us,
        success_cnt := st.success_cnt + results.countP (fun m => m.success),
        drop_cnt := st.drop_cnt + results.countP (fun m => m.dropped) } := by
  induction results with
  | nil => intro st; simp
  | cons m rs ih =>
    intro st
    rw [List.foldl_cons, ih]
    rw [List.filter_cons, List.countP_cons, List.countP_cons]
    cases hd : m.dropped <;> cases hs : m.success <;>
      simp [agg_step, hd, hs] <;> omega

/-- Closed form of the aggregation loop. -/
lemma agg_loop_spec (results : List NodeMetrics) :
    agg_loop results =
      { totals := (results.filter (fun m => !m.dropped)).map NodeMetrics.total_us,
        success_cnt := results.countP (fun m => m.success),
        drop_cnt := results.countP (fun m => m.dropped) } := by
  unfold agg_loop
  rw [agg_foldl]
  simp

/-! ## Further helper lemmas -/

/-- With both percentages at zero, the drop check and the tamper check never
fire (the uniform draws are non-negative), and the submitted token equals
the issued token, so validation succeeds. -/
lemma simulateNode_no_tamper (C : BlockCipher) (cfg : Config) (idx : Nat)
    (r : NodeRand) (hC : C.Sound) (hr : ValidRand r)
    (ht : cfg.tamper_percent = 0) (hf : cfg.fail_percent = 0) :
    simulateNode C cfg idx r =
      Except.ok { node_index := idx, total_us := r.elapsedFull,
                  success := true, dropped := false } := by
  have h0 : ¬ (r.failDraw < cfg.fail_percent / 100) := by
    rw [hf]
    simp only [zero_div, not_lt]
    exact hr.1
  rw [simulateNode_completed C cfg idx r hC hr h0]
  have hnt : ¬ (r.tamperDraw < cfg.tamper_percent / 100) := by
    rw [ht]
    simp only [zero_div, not_lt]
    exact hr.2.2.1
  unfold maybeTamper
  rw [if_neg hnt]
  simp

lemma except_ok_of_bind {α β : Type} {e : Except String α} {f : α → Except String β}
    {b : β} (h : e >>= f = Except.ok b) :
    ∃ a, e = Except.ok a ∧ f a = Except.ok b := by
  cases e with
  | error msg => exact absurd h (by simp [Bind.bind, Except.bind])
  | ok a => exact ⟨a, rfl, h⟩

/-- Every collected record was produced by some worker finishing some node
index, with the index field forced to that node. -/
lemma results_from_sim {nodes W : Nat} {sim : Nat → Nat → NodeMetrics}
    {s : RunState} (h : Reachable nodes W sim s) :
    ∀ m ∈ s.results, ∃ w i, m = { sim w i with node_index := i } := by
  induction h with
  | refl => intro m hm; simp [initState] at hm
  | tail hsteps hstep ih =>
    intro m hm
    cases hstep with
    | claim w s h hlt => exact ih m hm
    | claimStop w s h hge => exact ih m hm
    | finish w i s h =>
      rcases List.mem_append.mp hm with hm | hm
      · exact ih m hm
      · exact ⟨w, i, by simpa using hm⟩

/-! ## Witness scaffolding: concrete instances for the claim theorems -/

/-- Identity block cipher, a sound instance of the abstract AES core. -/
def idCipher : BlockCipher := ⟨fun _ b => b, fun _ b => b⟩

lemma idCipher_sound : idCipher.Sound := fun _ _ hb => ⟨rfl, hb⟩

/-- Concrete per-node entropy: zero draws, zero bytes, zero IVs. -/
def rand0 : NodeRand :=
  { failDraw := 0, tamperDraw := 0,
    tokenBytes := List.replicate 16 0, tamperBytes := List.replicate 8 0,
    ivNode := List.replicate 16 0, ivMw := List.replicate 16 0,
    ivReq := List.replicate 16 0, elapsedDrop := 5, elapsedFull := 7 }

/-- Concrete clean configuration: one node, one worker, no tampering, no
drops, empty filler payload. -/
def cfgClean : Config :=
  { nodes := 1, workers := 1, tamper_percent := 0, fail_percent := 0,
    payload_bytes := 0 }

/-- Outcome oracle matching `simulateNode idCipher cfgClean i rand0`. -/
def simClean : Nat → Nat → NodeMetrics :=
  fun _ i => { node_index := i, total_us := 7, success := true, dropped := false }

/-- The three intermediate states of the one-node one-worker run. -/
def runS1 : RunState := ⟨1, [], [WStatus.processing 0]⟩
def runS2 : RunState :=
  ⟨1, [{ node_index := 0, total_us := 7, success := true, dropped := false }],
    [WStatus.idle]⟩
def runS3 : RunState :=
  ⟨2, [{ node_index := 0, total_us := 7, success := true, dropped := false }],
    [WStatus.done]⟩

lemma runReach : Reachable 1 1 simClean runS3 := by
  have h1 : Step 1 simClean (initState 1) runS1 :=
    Step.claim 0 (initState 1) rfl (by decide)
  have h2 : Step 1 simClean runS1 runS2 := Step.finish 0 0 runS1 rfl
  have h3 : Step 1 simClean runS2 runS3 :=
    Step.claimStop 0 runS2 rfl (by decide)
  exact Relation.ReflTransGen.tail
    (Relation.ReflTransGen.tail (Relation.ReflTransGen.tail
      Relation.ReflTransGen.refl h1) h2) h3

lemma runTerm : Terminal runS3 := by decide

/-! ## Claim theorems -/

/-- C1: for every configuration, after a completed run (all workers
joined), the result collection contains exactly `Config.nodes` outcome
records and every node index in `[0, nodes)` appears as the `node_index` of
exactly one record — no duplicates, no gaps — regardless of worker count or
scheduling order. -/
theorem claim_C1 (cfg : Config) (W : Nat) (sim : Nat → Nat → NodeMetrics)
    (s : RunState) (hW : 0 < W)
    (hreach : Reachable cfg.nodes.toNat W sim s) (hterm : Terminal s) :
    s.results.length = cfg.nodes.toNat ∧
    (s.results.map NodeMetrics.node_index).Perm (List.range cfg.nodes.toNat) := by
  have hperm := terminal_perm hreach hterm hW
  refine ⟨?_, hperm⟩
  have := hperm.length_eq
  simpa using this

theorem claim_C1_witness :
    0 < 1 ∧ Terminal runS3 ∧
    (runS3.results.length = (cfgClean.nodes).toNat ∧
      (runS3.results.map NodeMetrics.node_index).Perm
        (List.range (cfgClean.nodes).toNat)) :=
  ⟨by decide, runTerm, claim_C1 cfgClean 1 simClean runS3 (by decide) runReach runTerm⟩

/-- C2: for every key and plaintext, decrypting the encryption under the
same key returns the original plaintext (given the AES core inverts on
byte blocks, the IV is a 16-byte block and the plaintext consists of
bytes, which the C++ types guarantee). -/
theorem claim_C2 (C : BlockCipher) (hC : C.Sound) (k : Nat) (iv plain : List Nat)
    (hiv : GoodBlock iv) (hplain : ∀ x ∈ plain, x < 256) :
    aesDecryptHex (C.dec k) (aesEncryptHex (C.enc k) iv plain) = Except.ok plain :=
  aes_round_trip (C.enc k) (C.dec k) (hC k) iv plain hiv hplain

theorem claim_C2_witness :
    GoodBlock (List.replicate 16 0) ∧ (∀ x ∈ [72, 105], x < 256) ∧
    aesDecryptHex (idCipher.dec KEY_TA_NODE)
      (aesEncryptHex (idCipher.enc KEY_TA_NODE) (List.replicate 16 0) [72, 105]) =
      Except.ok [72, 105] :=
  ⟨by decide, by decide,
    claim_C2 idCipher idCipher_sound KEY_TA_NODE (List.replicate 16 0) [72, 105]
      (by decide) (by decide)⟩

/-- C5: the reported success percentage is `100 * count(success) /
Config.nodes` and the drop percentage is `100 * count(dropped) /
Config.nodes` — the configured node count is the denominator, not the
completed count — and aggregating an empty outcome set yields 0 for every
statistic without performing any division. -/
theorem claim_C5 (cfg : Config) (results : List NodeMetrics) :
    (computeStats cfg results).success_pct =
      100 * (results.countP (fun m => m.success) : ℚ) / (cfg.nodes : ℚ) ∧
    (computeStats cfg results).drop_pct =
      100 * (results.countP (fun m => m.dropped) : ℚ) / (cfg.nodes : ℚ) ∧
    computeStats cfg [] =
      { avg_total := 0, min_total := 0, max_total := 0, med_total := 0,
        success_pct := 0, drop_pct := 0 } := by
  refine ⟨?_, ?_, ?_⟩
  · show (if results = [] then 0 else
        100 * ((agg_loop results).success_cnt : ℚ) / (cfg.nodes : ℚ)) = _
    rw [agg_loop_spec]
    by_cases h : results = []
    · subst h; simp
    · rw [if_neg h]
  · show (if results = [] then 0 else
        100 * ((agg_loop results).drop_cnt : ℚ) / (cfg.nodes : ℚ)) = _
    rw [agg_loop_spec]
    by_cases h : results = []
    · subst h; simp
    · rw [if_neg h]
  · rfl

/-- C6: the median is computed by sorting and taking the middle element for
odd length, the truncated-division mean of the two middle elements for even
length, 0 for the empty list; in particular the median of `{10,20,30}` is
20 and of `{10,20,30,40}` is 25. -/
theorem claim_C6 :
    median_of_vec [] = 0 ∧
    (∀ v : List Int, v ≠ [] → ∃ w : List Int,
      w.Perm v ∧ w.Sorted (· ≤ ·) ∧
      median_of_vec v = (if w.length % 2 = 1 then w.getD (w.length / 2) 0
        else Int.tdiv (w.getD (w.length / 2 - 1) 0 + w.getD (w.length / 2) 0) 2)) ∧
    median_of_vec [10, 20, 30] = 20 ∧
    median_of_vec [10, 20, 30, 40] = 25 := by
  refine ⟨rfl, ?_, by decide, by decide⟩
  intro v hv
  refine ⟨List.insertionSort (· ≤ ·) v, List.perm_insertionSort _ v,
    List.sorted_insertionSort _ v, ?_⟩
  unfold median_of_vec
  rw [if_neg hv]

theorem claim_C6_witness :
    ([10, 20, 30] : List Int) ≠ [] ∧
    (∃ w : List Int, w.Perm [10, 20, 30] ∧ w.Sorted (· ≤ ·) ∧
      median_of_vec [10, 20, 30] = (if w.length % 2 = 1 then w.getD (w.length / 2) 0
        else Int.tdiv (w.getD (w.length / 2 - 1) 0 + w.getD (w.length / 2) 0) 2)) :=
  ⟨by decide, claim_C6.2.1 [10, 20, 30] (by decide)⟩

/-- C3: in a run with `tamperPercent = 0` and `failPercent = 0`, no node is
dropped, every node's MW validation finds the submitted token equal to the
expected token (`success = true` for all nodes), and the reported success
percentage is 100%. -/
theorem claim_C3 (C : BlockCipher) (cfg : Config) (W : Nat)
    (sim : Nat → Nat → NodeMetrics) (rnd : Nat → Nat → NodeRand) (s : RunState)
    (hC : C.Sound) (ht : cfg.tamper_percent = 0) (hf : cfg.fail_percent = 0)
    (hn : 0 < cfg.nodes) (hW : 0 < W)
    (hr : ∀ w i, ValidRand (rnd w i))
    (hsim : ∀ w i, Except.ok (sim w i) = simulateNode C cfg i (rnd w i))
    (hreach : Reachable cfg.nodes.toNat W sim s) (hterm : Terminal s) :
    (∀ m ∈ s.results, m.dropped = false ∧ m.success = true) ∧
    (computeStats cfg s.results).success_pct = 100 := by
  have hsim' : ∀ w i, sim w i =
      { node_index := i, total_us := (rnd w i).elapsedFull,
        success := true, dropped := false } := by
    intro w i
    exact Except.ok.inj ((hsim w i).trans
      (simulateNode_no_tamper C cfg i (rnd w i) hC (hr w i) ht hf))
  have hall : ∀ m ∈ s.results, m.dropped = false ∧ m.success = true := by
    intro m hm
    obtain ⟨w, i, rfl⟩ := results_from_sim hreach m hm
    rw [hsim' w i]
    exact ⟨rfl, rfl⟩
  refine ⟨hall, ?_⟩
  have hlen : s.results.length = cfg.nodes.toNat := by
    simpa using (terminal_perm hreach hterm hW).length_eq
  have hne : s.results ≠ [] := by
    intro h
    rw [h] at hlen
    simp at hlen
    omega
  show (if s.results = [] then 0 else
      100 * ((agg_loop s.results).success_cnt : ℚ) / (cfg.nodes : ℚ)) = 100
  rw [if_neg hne, agg_loop_spec]
  have hcnt : s.results.countP (fun m => m.success) = s.results.length := by
    rw [List.countP_eq_length]
    intro a ha
    simp [(hall a ha).2]
  simp only
  rw [hcnt, hlen]
  have hnum : ((cfg.nodes.toNat : ℚ)) = ((cfg.nodes : Int) : ℚ) := by
    norm_cast
    omega
  have hx : (((cfg.nodes : Int) : ℚ)) ≠ 0 := by
    rw [Int.cast_ne_zero]
    omega
  rw [hnum, mul_div_assoc, div_self hx, mul_one]

lemma rand0_valid : ValidRand rand0 := by decide

theorem claim_C3_witness :
    idCipher.Sound ∧ cfgClean.tamper_percent = 0 ∧ cfgClean.fail_percent = 0 ∧
    (0 : Int) < cfgClean.nodes ∧ (0 : Nat) < 1 ∧ Terminal runS3 ∧
    ((∀ m ∈ runS3.results, m.dropped = false ∧ m.success = true) ∧
      (computeStats cfgClean runS3.results).success_pct = 100) :=
  ⟨idCipher_sound, rfl, rfl, by decide, by decide, runTerm,
    claim_C3 idCipher cfgClean 1 simClean (fun _ _ => rand0) runS3 idCipher_sound
      rfl rfl (by decide) (by decide) (fun _ _ => rand0_valid)
      (fun _ i => (simulateNode_no_tamper idCipher cfgClean i rand0 idCipher_sound
        rand0_valid rfl rfl).symm)
      runReach runTerm⟩

/-- Concrete always-tamper configuration. -/
def cfgTam : Config :=
  { nodes := 1, workers := 1, tamper_percent := 100, fail_percent := 0,
    payload_bytes := 0 }

/-- C4 counterexample: at a triggering tamper draw, the replacement token is
`genTokenHex` over 8 fresh bytes (16 hex characters), while the token
issued by the TokenAuthority is `genTokenHex` over 16 bytes (32 hex
characters) — not the same length. -/
theorem claim_C4_counterexample :
    (0 : ℚ) < cfgTam.tamper_percent / 100 ∧
    maybeTamper cfgTam 0 (List.replicate 8 0) (genTokenHex (List.replicate 16 0)) =
      genTokenHex (List.replicate 8 0) ∧
    (genTokenHex (List.replicate 8 0)).length = 16 ∧
    (genTokenHex (List.replicate 16 0)).length = 32 := by
  have htrig : (0 : ℚ) < cfgTam.tamper_percent / 100 := by
    show (0 : ℚ) < 100 / 100
    simp
  refine ⟨htrig, ?_, by decide, by decide⟩
  unfold maybeTamper
  rw [if_pos htrig]

/-- C4 as amended: whenever the tamper draw triggers, the recovered token
is replaced by a freshly generated random hex value over 8 independent
bytes (16 hex characters), half the length of the 32-character token the
TokenAuthority issues from 16 bytes — independent bytes, but a shorter
length class. -/
theorem claim_C4_amended (cfg : Config) (draw : ℚ) (r : NodeRand)
    (tok : List Nat) (hr : ValidRand r)
    (htrig : draw < cfg.tamper_percent / 100) :
    maybeTamper cfg draw r.tamperBytes tok = genTokenHex r.tamperBytes ∧
    (genTokenHex r.tamperBytes).length = 16 ∧
    (genTokenHex r.tokenBytes).length = 32 := by
  obtain ⟨_, _, _, _, htok16, _, htam8, _⟩ := hr
  refine ⟨by unfold maybeTamper; rw [if_pos htrig], ?_, ?_⟩
  · unfold genTokenHex
    rw [toHex_length, htam8]
  · unfold genTokenHex
    rw [toHex_length, htok16]

theorem claim_C4_amended_witness :
    ValidRand rand0 ∧ (0 : ℚ) < cfgTam.tamper_percent / 100 ∧
    (maybeTamper cfgTam 0 rand0.tamperBytes [] = genTokenHex rand0.tamperBytes ∧
      (genTokenHex rand0.tamperBytes).length = 16 ∧
      (genTokenHex rand0.tokenBytes).length = 32) :=
  ⟨by decide, by simp [cfgTam],
    claim_C4_amended cfgTam 0 rand0 [] (by decide) (by simp [cfgTam])⟩

/-- C7: every outcome record with `dropped = true` has `success = false`,
and the avg/min/max/median statistics are computed over the elapsed times
of the non-dropped records only. -/
theorem claim_C7 :
    (∀ (C : BlockCipher) (cfg : Config) (idx : Nat) (r : NodeRand)
      (m : NodeMetrics),
      simulateNode C cfg idx r = Except.ok m → m.dropped = true →
      m.success = false) ∧
    (∀ (cfg : Config) (results : List NodeMetrics),
      (computeStats cfg results).avg_total =
        (match (results.filter (fun m => !m.dropped)).map NodeMetrics.total_us with
          | [] => 0
          | _ :: _ =>
            Int.tdiv ((results.filter (fun m => !m.dropped)).map
                NodeMetrics.total_us).sum
              ((results.filter (fun m => !m.dropped)).map
                NodeMetrics.total_us).length) ∧
      (computeStats cfg results).min_total =
        (match (results.filter (fun m => !m.dropped)).map NodeMetrics.total_us with
          | [] => 0
          | x :: xs => xs.foldl min x) ∧
      (computeStats cfg results).max_total =
        (match (results.filter (fun m => !m.dropped)).map NodeMetrics.total_us with
          | [] => 0
          | x :: xs => xs.foldl max x) ∧
      (computeStats cfg results).med_total =
        median_of_vec ((results.filter (fun m => !m.dropped)).map
          NodeMetrics.total_us)) := by
  constructor
  · intro C cfg idx r m hok hd
    unfold simulateNode at hok
    by_cases hfail : r.failDraw < cfg.fail_percent / 100
    · rw [if_pos hfail] at hok
      cases Except.ok.inj hok
      rfl
    · rw [if_neg hfail] at hok
      obtain ⟨a1, h1, hok⟩ := except_ok_of_bind hok
      obtain ⟨a2, h2, hok⟩ := except_ok_of_bind hok
      obtain ⟨a3, h3, hok⟩ := except_ok_of_bind hok
      cases Except.ok.inj hok
      cases hd
  · intro cfg results
    unfold computeStats
    rw [agg_loop_spec]
    exact ⟨rfl, rfl, rfl, rfl⟩

/-- Concrete always-drop configuration. -/
def cfgFail : Config :=
  { nodes := 1, workers := 1, tamper_percent := 0, fail_percent := 100,
    payload_bytes := 0 }

lemma simDropEq : simulateNode idCipher cfgFail 0 rand0 =
    Except.ok { node_index := 0, total_us := 5, success := false,
                dropped := true } :=
  simulateNode_dropped idCipher cfgFail 0 rand0 (by simp [cfgFail, rand0])

theorem claim_C7_witness :
    (simulateNode idCipher cfgFail 0 rand0 =
      Except.ok { node_index := 0, total_us := 5, success := false,
                  dropped := true }) ∧
    ({ node_index := 0, total_us := 5, success := false,
       dropped := true } : NodeMetrics).dropped = true ∧
    ({ node_index := 0, total_us := 5, success := false,
       dropped := true } : NodeMetrics).success = false :=
  ⟨simDropEq, rfl, claim_C7.1 idCipher cfgFail 0 rand0 _ simDropEq rfl⟩

/-- C8 counterexample: a wire string whose IV part contains the undecodable
hex character `z` (byte 122) is decrypted without any error — the decoder
silently skips the character — so decrypt does *not* fail on undecodable
hex. -/
theorem claim_C8_counterexample :
    (122 : Nat) ∈ strBytes "0000000000000000z0000000000000000" ∧
    hexVal 122 = none ∧
    aesDecryptHex (fun b => b)
      (strBytes "0000000000000000z0000000000000000" ++
        58 :: toHex (List.replicate 16 16)) = Except.ok [] := by
  decide

/-- C8 as amended: decrypt fails with the malformed-ciphertext error
exactly when the wire string has no `:` separator; hex decoding silently
skips characters outside the hex alphabet, so undecodable hex does not by
itself cause an error. -/
theorem claim_C8_amended :
    (∀ (D : List Nat → List Nat) (s : List Nat), (58 : Nat) ∉ s →
      aesDecryptHex D s = Except.error "Bad ciphertext format") ∧
    (∀ (s t : List Nat) (c : Nat), hexVal c = none →
      fromHex (s ++ c :: t) = fromHex (s ++ t)) := by
  constructor
  · intro D s h
    unfold aesDecryptHex
    rw [findSub_single_none h]
  · intro s t c hc
    unfold fromHex
    simp [List.filterMap_append, List.filterMap_cons, hc]

theorem claim_C8_amended_witness :
    ((58 : Nat) ∉ strBytes "deadbeef") ∧
    aesDecryptHex (fun b => b) (strBytes "deadbeef") =
      Except.error "Bad ciphertext format" ∧
    hexVal 122 = none ∧
    fromHex ([48] ++ 122 :: [49]) = fromHex ([48] ++ [49]) :=
  ⟨by decide, claim_C8_amended.1 (fun b => b) (strBytes "deadbeef") (by decide),
    by decide, claim_C8_amended.2 [48] [49] 122 (by decide)⟩

/-- C9: during MW validation malformed content never raises an error and
defaults to failure: a payload without the `TOKEN:` marker extracts the
empty token; a request without a well-formed `HEADER[...]` leaves the
success flag false; and success can only arise from the token equality
comparison on a well-formed header. -/
theorem claim_C9 :
    (∀ s : List Nat, findSub s (strBytes "TOKEN:") = none →
      extractAfterToken s = []) ∧
    (∀ req t : List Nat, findSub req (strBytes "HEADER[") = none →
      mwValidate req t = false) ∧
    (∀ (req t : List Nat) (hpos : Nat),
      findSub req (strBytes "HEADER[") = some hpos →
      findSubFrom req (strBytes "]") (hpos + 7) = none →
      mwValidate req t = false) ∧
    (∀ req t : List Nat, mwValidate req t = true → ∃ hpos hend : Nat,
      findSub req (strBytes "HEADER[") = some hpos ∧
      findSubFrom req (strBytes "]") (hpos + 7) = some hend ∧
      extractAfterToken ((req.drop (hpos + 7)).take (hend - (hpos + 7))) = t) := by
  refine ⟨?_, ?_, ?_, ?_⟩
  · intro s h
    unfold extractAfterToken
    rw [h]
  · intro req t h
    unfold mwValidate
    rw [h]
  · intro req t hpos hH hB
    unfold mwValidate
    simp only [hH, hB]
  · intro req t h
    unfold mwValidate at h
    rcases hH : findSub req (strBytes "HEADER[") with _ | hpos
    · simp only [hH] at h
      cases h
    · simp only [hH] at h
      rcases hB : findSubFrom req (strBytes "]") (hpos + 7) with _ | hend
      · simp only [hB] at h
        cases h
      · simp only [hB] at h
        exact ⟨hpos, hend, rfl, hB, eq_of_beq h⟩

theorem claim_C9_witness :
    (findSub [] (strBytes "TOKEN:") = none ∧ extractAfterToken [] = []) ∧
    (findSub (strBytes "x") (strBytes "HEADER[") = none ∧
      mwValidate (strBytes "x") [] = false) ∧
    (findSub (strBytes "HEADER[x") (strBytes "HEADER[") = some 0 ∧
      findSubFrom (strBytes "HEADER[x") (strBytes "]") 7 = none ∧
      mwValidate (strBytes "HEADER[x") [] = false) ∧
    (mwValidate (strBytes "HEADER[TOKEN:]") [] = true ∧ ∃ hpos hend : Nat,
      findSub (strBytes "HEADER[TOKEN:]") (strBytes "HEADER[") = some hpos ∧
      findSubFrom (strBytes "HEADER[TOKEN:]") (strBytes "]") (hpos + 7) =
        some hend ∧
      extractAfterToken (((strBytes "HEADER[TOKEN:]").drop (hpos + 7)).take
        (hend - (hpos + 7))) = []) :=
  ⟨⟨by decide, claim_C9.1 [] (by decide)⟩,
    ⟨by decide, claim_C9.2.1 (strBytes "x") [] (by decide)⟩,
    ⟨by decide, by decide,
      claim_C9.2.2.1 (strBytes "HEADER[x") [] 0 (by decide) (by decide)⟩,
    ⟨by decide, claim_C9.2.2.2 (strBytes "HEADER[TOKEN:]") [] (by decide)⟩⟩

/-- C10: a recognized flag that is not followed by its required number of
value arguments falls through to the unknown-argument branch: `parse_args`
returns false, and `main` prints the usage text and exits with status 1. -/
theorem claim_C10 :
    (∀ (stoi : String → Option Int) (stod : String → Option ℚ) (cfg : Config)
      (f : String),
      f ∈ ["--nodes", "--workers", "--tamper-percent", "--payload-bytes",
           "--node-jitter", "--fail-percent", "--out"] →
      parseArgsAux stoi stod cfg [f] = ParseOutcome.failed) ∧
    (∀ (stoi : String → Option Int) (stod : String → Option ℚ) (cfg : Config)
      (f v : String),
      f ∈ ["--net-ta-node", "--net-node-mw", "--db-delay"] →
      parseArgsAux stoi stod cfg [f] = ParseOutcome.failed ∧
      parseArgsAux stoi stod cfg [f, v] = ParseOutcome.failed) ∧
    (∀ (stoi : String → Option Int) (stod : String → Option ℚ)
      (args : List String),
      parse_args stoi stod args = ParseOutcome.failed →
      main_start stoi stod args = MainStart.usageExit true 1) := by
  refine ⟨?_, ?_, ?_⟩
  · intro stoi stod cfg f hf
    simp only [List.mem_cons, List.not_mem_nil, or_false] at hf
    rcases hf with rfl | rfl | rfl | rfl | rfl | rfl | rfl <;> rfl
  · intro stoi stod cfg f v hf
    simp only [List.mem_cons, List.not_mem_nil, or_false] at hf
    rcases hf with rfl | rfl | rfl <;> exact ⟨rfl, rfl⟩
  · intro stoi stod args h
    unfold main_start
    rw [h]

theorem claim_C10_witness :
    (("--nodes" : String) ∈ ["--nodes", "--workers", "--tamper-percent",
      "--payload-bytes", "--node-jitter", "--fail-percent", "--out"]) ∧
    parseArgsAux (fun _ => none) (fun _ => none) {} ["--nodes"] =
      ParseOutcome.failed ∧
    parse_args (fun _ => none) (fun _ => none) ["--nodes"] =
      ParseOutcome.failed ∧
    main_start (fun _ => none) (fun _ => none) ["--nodes"] =
      MainStart.usageExit true 1 :=
  ⟨by decide, claim_C10.1 (fun _ => none) (fun _ => none) {} "--nodes" (by decide),
    rfl, claim_C10.2.2 (fun _ => none) (fun _ => none) ["--nodes"] rfl⟩

end AuthSim

